import Mathlib

/-!
# Verification of `mpc-bleeder` (src/main.go)

Shallow embedding of the mpc-bleeder card-image tool in Lean 4.

Modelling conventions:
* Go `float64` arithmetic on the small constants `0.24` and `2.48` is embedded
  as exact rational arithmetic (`ℚ`).  `math.Round` (round half away from zero)
  agrees with Mathlib's `round` (round half up) on the nonnegative values that
  occur here, and the exact value `W * 0.24 / 2.48 = 3*W/31` is never a
  half-integer (`6*W ≡ 31 [MOD 62]` has no solution), so rounding is insensitive
  to the tiny float64 representation error for any width in Go's `int` range.
* Go `int` division of nonnegative quantities is `Nat` division.
* Go strings are embedded as `List Char`.
* A Go `image.Image` is embedded as a pixel function `ℤ → ℤ → RGBA` together
  with its bounds; decoded images (the only ones the program composites) have
  their origin at `(0, 0)`, as produced by Go's `image.Decode`.
* The `image/draw` compositing operators are embedded with the exact integer
  arithmetic of Go's `draw.drawRGBA` fallback (16-bit per channel, `m = 0xffff`,
  final `uint8(v >> 8)` store).
-/

namespace MpcBleeder

/-- Source global `widthNoBleed = 2.48` (inches, card width without bleed). -/
def widthNoBleed : ℚ := 2.48

/-- Source global `bleedWidth = 0.24` (inches of total bleed). -/
def bleedWidth : ℚ := 0.24

/-- Source global `cornerFix = true` (hard-coded; not read from any flag). -/
def cornerFix : Bool := true

/-- Default of the `-w` flag `OW_OUT` ("Overwrite output images ... that already exist."). -/
def OW_OUT_default : Bool := false

/-- Default of the `-fmt` flag `OUT_FMT`. -/
def OUT_FMT_default : List Char := "png".toList

/-- Default of the `-jcf` flag `JPG_CORNER_FIX` ("Jpg Corner Fix - removes white
artifacts from the corners of jpeg cards").  This flag is declared in the source
but never read anywhere else in the program. -/
def JPG_CORNER_FIX_default : Bool := false

/-- The width-level core of `calculateBleedWidth`:
`int(math.Round((float64(cardWidth)*bleedWidth)/widthNoBleed)) / 2`. -/
def calculateBleedWidthPx (cardWidth : ℕ) : ℕ :=
  (round ((cardWidth : ℚ) * bleedWidth / widthNoBleed)).toNat / 2

/-- The spec's formula for the bleed width, written exactly as the spec states
it: `floor(round(originalWidthPx * (bleed/noBleedWidth)) / 2)`, with real
(here: rational) division inside the floor. -/
def specBleedFormula (originalWidthPx : ℕ) : ℤ :=
  ⌊((round ((originalWidthPx : ℚ) * bleedWidth / widthNoBleed) : ℤ) : ℚ) / 2⌋

lemma round_ratio_nonneg (w : ℕ) :
    0 ≤ round ((w : ℚ) * bleedWidth / widthNoBleed) := by
  have h : (0 : ℚ) ≤ (w : ℚ) * bleedWidth / widthNoBleed := by
    have hb : (0 : ℚ) ≤ bleedWidth := by norm_num [bleedWidth]
    have hn : (0 : ℚ) ≤ widthNoBleed := by norm_num [widthNoBleed]
    positivity
  calc (0 : ℤ) = round (0 : ℚ) := by simp
  _ ≤ _ := by
    rw [round_eq, round_eq]
    exact Int.floor_mono (by linarith)

/-- C1, main theorem. -/
theorem calculateBleedWidthPx_eq_spec (w : ℕ) (hw : 0 < w) :
    (calculateBleedWidthPx w : ℤ) = specBleedFormula w ∧
      calculateBleedWidthPx 750 = 36 := by
  constructor
  · set r : ℤ := round ((w : ℚ) * bleedWidth / widthNoBleed) with hr
    have hr0 : 0 ≤ r := round_ratio_nonneg w
    unfold calculateBleedWidthPx specBleedFormula
    rw [← hr]
    have h2 := Rat.floor_intCast_div_natCast r 2
    norm_num at h2
    rw [h2]
    omega
  · unfold calculateBleedWidthPx bleedWidth widthNoBleed
    rw [round_eq]
    norm_num
    rfl

/-- C1, witness at width 750. -/
theorem calculateBleedWidthPx_eq_spec_witness :
    (calculateBleedWidthPx 750 : ℤ) = specBleedFormula 750 ∧
      calculateBleedWidthPx 750 = 36 :=
  calculateBleedWidthPx_eq_spec 750 (by decide)

/-- C9, main theorem: the bleed-width calculation is monotonically
non-decreasing in the input width. -/
theorem calculateBleedWidthPx_mono (w₁ w₂ : ℕ) (h₁ : 0 < w₁) (h₂ : w₁ ≤ w₂) :
    calculateBleedWidthPx w₁ ≤ calculateBleedWidthPx w₂ := by
  unfold calculateBleedWidthPx
  have hq : (w₁ : ℚ) * bleedWidth / widthNoBleed ≤ (w₂ : ℚ) * bleedWidth / widthNoBleed := by
    have hb : (0 : ℚ) ≤ bleedWidth := by norm_num [bleedWidth]
    have hn : (0 : ℚ) < widthNoBleed := by norm_num [widthNoBleed]
    have hw : (w₁ : ℚ) ≤ (w₂ : ℚ) := by exact_mod_cast h₂
    exact div_le_div_of_nonneg_right (mul_le_mul_of_nonneg_right hw hb) hn.le
  have hround : round ((w₁ : ℚ) * bleedWidth / widthNoBleed)
      ≤ round ((w₂ : ℚ) * bleedWidth / widthNoBleed) := by
    rw [round_eq, round_eq]
    exact Int.floor_mono (by linarith)
  exact Nat.div_le_div_right (Int.toNat_le_toNat hround)

/-- C9, witness at widths 750 ≤ 1050. -/
theorem calculateBleedWidthPx_mono_witness :
    calculateBleedWidthPx 750 ≤ calculateBleedWidthPx 1050 :=
  calculateBleedWidthPx_mono 750 1050 (by decide) (by decide)

/-! ## Pixel and image model -/

/-- An 8-bit RGBA pixel sample (alpha-premultiplied, like Go's `image.RGBA`). -/
structure RGBA where
  r : ℕ
  g : ℕ
  b : ℕ
  a : ℕ
deriving DecidableEq, Repr

/-- Source global `BLACK = color.RGBA{0, 0, 0, 255}`. -/
def BLACK : RGBA := ⟨0, 0, 0, 255⟩

/-- Opaque white, used for concrete test images. -/
def WHITE : RGBA := ⟨255, 255, 255, 255⟩

/-- All channels of an 8-bit sample are in range. -/
def RGBA.valid (c : RGBA) : Prop :=
  c.r ≤ 255 ∧ c.g ≤ 255 ∧ c.b ≤ 255 ∧ c.a ≤ 255

/-- Go `image.Rectangle`, the half-open region `[x0,x1) × [y0,y1)`. -/
structure Rect where
  x0 : ℤ
  y0 : ℤ
  x1 : ℤ
  y1 : ℤ
deriving DecidableEq, Repr

/-- Go `image.Rect(a, b, c, d)`: swaps the two coordinates of an axis if needed
so that the result is well-formed. -/
def mkRect (a b c d : ℤ) : Rect := ⟨min a c, min b d, max a c, max b d⟩

/-- Membership of a point in a rectangle (Go `Point.In`). -/
def Rect.mem (r : Rect) (x y : ℤ) : Prop :=
  r.x0 ≤ x ∧ x < r.x1 ∧ r.y0 ≤ y ∧ y < r.y1

instance (r : Rect) (x y : ℤ) : Decidable (r.mem x y) := by
  unfold Rect.mem; infer_instance

/-- Go `Rectangle.Intersect`, membership-wise (the normalisation of an empty
intersection to `ZR` does not change which points lie inside). -/
def Rect.inter (r s : Rect) : Rect :=
  ⟨max r.x0 s.x0, max r.y0 s.y0, min r.x1 s.x1, min r.y1 s.y1⟩

/-- Go `Rectangle.Add`. -/
def Rect.addPt (r : Rect) (dx dy : ℤ) : Rect :=
  ⟨r.x0 + dx, r.y0 + dy, r.x1 + dx, r.y1 + dy⟩

/-- A decoded Go image: bounds `[0,width) × [0,height)` (as produced by
`image.Decode` and `image.NewRGBA`) together with its pixel grid. -/
structure GoImage where
  width : ℕ
  height : ℕ
  pix : ℤ → ℤ → RGBA

def GoImage.bounds (img : GoImage) : Rect := ⟨0, 0, img.width, img.height⟩

/-- Go `image/draw`'s *over* operator for one pixel: exactly the integer
arithmetic of Go's `drawRGBA` with `op = Over` — `m = 0xffff`, 16-bit source
samples `src.c * 0x101` from `RGBA()`, `a := (m - sa) * 0x101`, and the result
stored back as `uint8((dr*a/m + sr) >> 8)`. -/
def overOp (src dst : RGBA) : RGBA :=
  let m : ℕ := 65535
  let sa := src.a * 257
  let a := (m - sa) * 257
  ⟨(dst.r * a / m + src.r * 257) / 256 % 256,
   (dst.g * a / m + src.g * 257) / 256 % 256,
   (dst.b * a / m + src.b * 257) / 256 % 256,
   (dst.a * a / m + sa) / 256 % 256⟩

/-- `draw.Draw(dst, r, &image.Uniform{c}, zp, draw.Src)`: plain fill of the
rectangle clipped to the destination bounds. -/
def drawFillSrc (dst : GoImage) (r : Rect) (c : RGBA) : GoImage :=
  { dst with pix := fun x y => if (r.inter dst.bounds).mem x y then c else dst.pix x y }

/-- `draw.Draw(dst, r, &image.Uniform{c}, zp, draw.Over)`. -/
def drawFillOver (dst : GoImage) (r : Rect) (c : RGBA) : GoImage :=
  { dst with pix := fun x y =>
      if (r.inter dst.bounds).mem x y then overOp c (dst.pix x y) else dst.pix x y }

/-- `draw.Draw(dst, r, src, sp, draw.Over)` for an image source: each point `p`
of `r` (clipped to the destination bounds) composites the source sample at
`sp + (p - r.Min)` (clipped to the source bounds) over the destination. -/
def drawImageOver (dst : GoImage) (r : Rect) (src : GoImage) (spx spy : ℤ) : GoImage :=
  { dst with pix := fun x y =>
      if (r.inter dst.bounds).mem x y ∧ src.bounds.mem (spx + x - r.x0) (spy + y - r.y0) then
        overOp (src.pix (spx + x - r.x0) (spy + y - r.y0)) (dst.pix x y)
      else dst.pix x y }

/-- Source `calculateBleedWidth(img)`. -/
def calculateBleedWidth (img : GoImage) : ℕ := calculateBleedWidthPx img.width

/-- Source `fixCorners(img, bleedWidth, innerCardBounds)`: eight sequential
opaque-black uniform fills, two per corner of the inner card rectangle.
`rectWidth := int(float64(bleedWidth) * 0.75)` equals `3*bleedWidth/4` for the
nonnegative pixel counts that occur. -/
def fixCorners (img : GoImage) (bleedWidth : ℕ) (inner : Rect) : GoImage :=
  let rectWidth : ℤ := 3 * (bleedWidth : ℤ) / 4
  let bw : ℤ := bleedWidth
  -- Top left: origin = inner.Min
  let i1 := drawFillOver img (mkRect inner.x0 inner.y0 (inner.x0 + rectWidth) (inner.y0 + bw)) BLACK
  let i2 := drawFillOver i1 (mkRect inner.x0 inner.y0 (inner.x0 + bw) (inner.y0 + rectWidth)) BLACK
  -- Top right: origin.X = inner.Max.X
  let i3 := drawFillOver i2 (mkRect inner.x1 inner.y0 (inner.x1 - rectWidth) (inner.y0 + bw)) BLACK
  let i4 := drawFillOver i3 (mkRect inner.x1 inner.y0 (inner.x1 - bw) (inner.y0 + rectWidth)) BLACK
  -- Bottom right: origin.Y = inner.Max.Y
  let i5 := drawFillOver i4 (mkRect inner.x1 inner.y1 (inner.x1 - rectWidth) (inner.y1 - bw)) BLACK
  let i6 := drawFillOver i5 (mkRect inner.x1 inner.y1 (inner.x1 - bw) (inner.y1 - rectWidth)) BLACK
  -- Bottom left: origin.X = inner.Min.X
  let i7 := drawFillOver i6 (mkRect inner.x0 inner.y1 (inner.x0 + rectWidth) (inner.y1 - bw)) BLACK
  let i8 := drawFillOver i7 (mkRect inner.x0 inner.y1 (inner.x0 + bw) (inner.y1 - rectWidth)) BLACK
  i8

/-- Source `createCardWithBleed(cardImg, inImgFormat)`. -/
def createCardWithBleed (cardImg : GoImage) (inImgFormat : List Char) : GoImage :=
  let bleedEdgePx := calculateBleedWidth cardImg
  let cardWithBleedBounds :=
    mkRect 0 0 (cardImg.width + bleedEdgePx * 2) (cardImg.height + bleedEdgePx * 2)
  let cardNoBleedBounds := cardImg.bounds.addPt bleedEdgePx bleedEdgePx
  let cardWithBleed : GoImage :=
    ⟨cardImg.width + bleedEdgePx * 2, cardImg.height + bleedEdgePx * 2, fun _ _ => ⟨0, 0, 0, 0⟩⟩
  let c1 := drawFillSrc cardWithBleed cardWithBleedBounds BLACK
  let c2 := drawImageOver c1 cardNoBleedBounds cardImg 0 0
  if cornerFix ∧ (inImgFormat = "jpg".toList ∨ inImgFormat = "jpeg".toList) then
    fixCorners c2 bleedEdgePx cardNoBleedBounds
  else c2

/-- A 42 × 42 all-white, fully opaque test image (bleed width 2, rectWidth 1). -/
def whiteImg42 : GoImage := ⟨42, 42, fun _ _ => WHITE⟩

/-- A 1 × 1 all-white, fully opaque test image (bleed width 0). -/
def whiteImg1 : GoImage := ⟨1, 1, fun _ _ => WHITE⟩

/-! ## Compositing lemmas -/

lemma Rect.mem_inter {r s : Rect} {x y : ℤ} :
    (r.inter s).mem x y ↔ r.mem x y ∧ s.mem x y := by
  simp only [Rect.inter, Rect.mem]
  omega

lemma drawFillSrc_width (dst : GoImage) (r : Rect) (c : RGBA) :
    (drawFillSrc dst r c).width = dst.width := rfl

lemma drawFillSrc_height (dst : GoImage) (r : Rect) (c : RGBA) :
    (drawFillSrc dst r c).height = dst.height := rfl

lemma drawFillOver_width (dst : GoImage) (r : Rect) (c : RGBA) :
    (drawFillOver dst r c).width = dst.width := rfl

lemma drawFillOver_height (dst : GoImage) (r : Rect) (c : RGBA) :
    (drawFillOver dst r c).height = dst.height := rfl

lemma drawImageOver_width (dst : GoImage) (r : Rect) (src : GoImage) (spx spy : ℤ) :
    (drawImageOver dst r src spx spy).width = dst.width := rfl

lemma drawImageOver_height (dst : GoImage) (r : Rect) (src : GoImage) (spx spy : ℤ) :
    (drawImageOver dst r src spx spy).height = dst.height := rfl

lemma fixCorners_width (img : GoImage) (bw : ℕ) (inner : Rect) :
    (fixCorners img bw inner).width = img.width := rfl

lemma fixCorners_height (img : GoImage) (bw : ℕ) (inner : Rect) :
    (fixCorners img bw inner).height = img.height := rfl

lemma GoImage.bounds_mk (w h : ℕ) (p : ℤ → ℤ → RGBA) :
    (GoImage.mk w h p).bounds = ⟨0, 0, w, h⟩ := rfl

lemma GoImage.width_mk (w h : ℕ) (p : ℤ → ℤ → RGBA) : (GoImage.mk w h p).width = w := rfl

lemma GoImage.height_mk (w h : ℕ) (p : ℤ → ℤ → RGBA) : (GoImage.mk w h p).height = h := rfl

/-- Compositing a fully opaque in-range sample over anything returns the sample. -/
lemma overOp_opaque (s d : RGBA) (ha : s.a = 255) (hs : s.valid) : overOp s d = s := by
  obtain ⟨r, g, b, a⟩ := s
  have hr : r ≤ 255 := hs.1
  have hg : g ≤ 255 := hs.2.1
  have hb : b ≤ 255 := hs.2.2.1
  have ha' : a = 255 := ha
  subst ha'
  unfold overOp
  simp only [RGBA.mk.injEq]
  norm_num
  have e1 : r * 257 / 256 = r := by omega
  have e2 : g * 257 / 256 = g := by omega
  have e3 : b * 257 / 256 = b := by omega
  refine ⟨?_, ?_, ?_⟩ <;> simp [e1, e2, e3] <;> omega

/-- Compositing opaque black over anything gives opaque black. -/
lemma overOp_black (d : RGBA) : overOp BLACK d = BLACK := by
  unfold overOp BLACK
  norm_num

lemma drawFillSrc_pix_mem (dst : GoImage) (r : Rect) (c : RGBA) (x y : ℤ)
    (h : (r.inter dst.bounds).mem x y) :
    (drawFillSrc dst r c).pix x y = c := by
  simp [drawFillSrc, h]

lemma drawFillOver_pix_mem (dst : GoImage) (r : Rect) (c : RGBA) (x y : ℤ)
    (h : (r.inter dst.bounds).mem x y) :
    (drawFillOver dst r c).pix x y = overOp c (dst.pix x y) := by
  simp [drawFillOver, h]

lemma drawFillOver_pix_not (dst : GoImage) (r : Rect) (c : RGBA) (x y : ℤ)
    (h : ¬ (r.inter dst.bounds).mem x y) :
    (drawFillOver dst r c).pix x y = dst.pix x y := by
  simp [drawFillOver, h]

lemma drawImageOver_pix_mem (dst : GoImage) (r : Rect) (src : GoImage) (spx spy x y : ℤ)
    (h1 : (r.inter dst.bounds).mem x y)
    (h2 : src.bounds.mem (spx + x - r.x0) (spy + y - r.y0)) :
    (drawImageOver dst r src spx spy).pix x y
      = overOp (src.pix (spx + x - r.x0) (spy + y - r.y0)) (dst.pix x y) := by
  simp [drawImageOver, h1, h2]

/-- The bleed width of a 42-px-wide image is 2 (`round(42*0.24/2.48) = 4`). -/
lemma calculateBleedWidth_whiteImg42 : calculateBleedWidth whiteImg42 = 2 := by
  show calculateBleedWidthPx 42 = 2
  unfold calculateBleedWidthPx bleedWidth widthNoBleed
  rw [round_eq]
  norm_num
  all_goals decide

/-- The bleed width of a 1-px-wide image is 0. -/
lemma calculateBleedWidth_whiteImg1 : calculateBleedWidth whiteImg1 = 0 := by
  show calculateBleedWidthPx 1 = 0
  unfold calculateBleedWidthPx bleedWidth widthNoBleed
  rw [round_eq]
  norm_num
  all_goals decide

/-- C2, counterexample: for a jpeg input the centered sub-region is *not*
pixel-identical to the original — the hard-coded corner repair repaints the
inner corner pixel (2,2) (= original pixel (0,0)) black on a 42×42 all-white
image with bleed width 2. -/
theorem createCardWithBleed_jpeg_corner_counterexample :
    (createCardWithBleed whiteImg42 "jpeg".toList).pix (0 + 2) (0 + 2) = BLACK ∧
      whiteImg42.pix 0 0 = WHITE ∧ BLACK ≠ WHITE := by
  refine ⟨?_, rfl, by decide⟩
  simp only [createCardWithBleed]
  rw [calculateBleedWidth_whiteImg42]
  decide

/-- C2 (amended), main theorem: the output of `createCardWithBleed` has size
`(W + 2*bleedPx, H + 2*bleedPx)` for every input image and every detected
format (jpg/jpeg included); and for a fully opaque decoded input the sub-region
at offset `(bleedPx, bleedPx)` is pixel-identical to the original input
whenever corner repair does not run, i.e. whenever the detected source format
is not jpg/jpeg (for jpg/jpeg the hard-coded corner repair additionally paints
the eight corner rectangles black, which can break pixel-identity — see the
counterexample). -/
theorem createCardWithBleed_roundTrip (img : GoImage) (fmt : List Char) :
    (createCardWithBleed img fmt).width = img.width + 2 * calculateBleedWidth img ∧
    (createCardWithBleed img fmt).height = img.height + 2 * calculateBleedWidth img ∧
    (∀ x y : ℤ, img.bounds.mem x y →
      (∀ u v : ℤ, img.bounds.mem u v → (img.pix u v).a = 255 ∧ (img.pix u v).valid) →
      ¬(fmt = "jpg".toList ∨ fmt = "jpeg".toList) →
      (createCardWithBleed img fmt).pix (x + (calculateBleedWidth img : ℤ))
          (y + (calculateBleedWidth img : ℤ)) = img.pix x y) := by
  refine ⟨?_, ?_, ?_⟩
  · simp only [createCardWithBleed]
    split_ifs with hc <;>
      simp only [fixCorners_width, drawImageOver_width, drawFillSrc_width,
        GoImage.width_mk] <;>
      omega
  · simp only [createCardWithBleed]
    split_ifs with hc <;>
      simp only [fixCorners_height, drawImageOver_height, drawFillSrc_height,
        GoImage.height_mk] <;>
      omega
  · intro x y hxy hopq hfmt
    have hcase : ¬(cornerFix = true ∧ (fmt = "jpg".toList ∨ fmt = "jpeg".toList)) :=
      fun h => hfmt h.2
    simp only [createCardWithBleed, if_neg hcase]
    have hxy' := hxy
    simp only [GoImage.bounds, Rect.mem] at hxy'
    set b : ℕ := calculateBleedWidth img with hbdef
    rw [drawImageOver_pix_mem]
    · have hx : (0 : ℤ) + (x + (b : ℤ)) - ((img.bounds.addPt b b).x0) = x := by
        simp only [GoImage.bounds, Rect.addPt]
        ring
      have hy : (0 : ℤ) + (y + (b : ℤ)) - ((img.bounds.addPt b b).y0) = y := by
        simp only [GoImage.bounds, Rect.addPt]
        ring
      rw [hx, hy]
      rw [drawFillSrc_pix_mem]
      · exact overOp_opaque _ _ (hopq x y hxy).1 (hopq x y hxy).2
      · simp only [Rect.mem_inter, Rect.mem, Rect.inter, mkRect, GoImage.bounds_mk,
          GoImage.bounds, GoImage.width_mk, GoImage.height_mk]
        omega
    · simp only [Rect.mem_inter, Rect.mem, Rect.inter, Rect.addPt, GoImage.bounds, mkRect,
        drawFillSrc_width, drawFillSrc_height, GoImage.width_mk, GoImage.height_mk]
      omega
    · simp only [Rect.mem, Rect.addPt, GoImage.bounds]
      omega

/-- C2 (amended), witness: a concrete 1×1 opaque white png image round-trips,
and a concrete jpeg image still gets the enlarged canvas size. -/
theorem createCardWithBleed_roundTrip_witness :
    (createCardWithBleed whiteImg42 "jpeg".toList).width
        = whiteImg42.width + 2 * calculateBleedWidth whiteImg42 ∧
    (createCardWithBleed whiteImg1 "png".toList).width
        = whiteImg1.width + 2 * calculateBleedWidth whiteImg1 ∧
    (createCardWithBleed whiteImg1 "png".toList).height
        = whiteImg1.height + 2 * calculateBleedWidth whiteImg1 ∧
    (createCardWithBleed whiteImg1 "png".toList).pix
        ((0 : ℤ) + (calculateBleedWidth whiteImg1 : ℤ))
        ((0 : ℤ) + (calculateBleedWidth whiteImg1 : ℤ)) = whiteImg1.pix 0 0 :=
  ⟨(createCardWithBleed_roundTrip whiteImg42 "jpeg".toList).1,
   (createCardWithBleed_roundTrip whiteImg1 "png".toList).1,
   (createCardWithBleed_roundTrip whiteImg1 "png".toList).2.1,
   (createCardWithBleed_roundTrip whiteImg1 "png".toList).2.2 0 0 (by decide)
     (fun _ _ _ => ⟨rfl, Nat.le_refl 255, Nat.le_refl 255, Nat.le_refl 255, Nat.le_refl 255⟩)
     (by decide)⟩

/-! ## Corner repair (C5) -/

/-- Sequential uniform fills over a list of rectangles (the shape of the eight
draws in `fixCorners`). -/
def fillAll (rects : List Rect) (c : RGBA) (img : GoImage) : GoImage :=
  rects.foldl (fun d r => drawFillOver d r c) img

lemma fillAll_pix_not (rects : List Rect) (c : RGBA) (img : GoImage) (x y : ℤ)
    (h : ∀ r ∈ rects, ¬ r.mem x y) :
    (fillAll rects c img).pix x y = img.pix x y := by
  induction rects generalizing img with
  | nil => rfl
  | cons r rs ih =>
    have hr : ¬ (r.inter img.bounds).mem x y :=
      fun hm => h r (List.mem_cons_self r rs) (Rect.mem_inter.mp hm).1
    calc (fillAll (r :: rs) c img).pix x y
        = (fillAll rs c (drawFillOver img r c)).pix x y := rfl
      _ = (drawFillOver img r c).pix x y :=
          ih _ (fun r' hr' => h r' (List.mem_cons_of_mem _ hr'))
      _ = img.pix x y := drawFillOver_pix_not _ _ _ _ _ hr

lemma fillAll_pix_black (rects : List Rect) (img : GoImage) (x y : ℤ)
    (hb : img.bounds.mem x y) (hex : ∃ r ∈ rects, r.mem x y) :
    (fillAll rects BLACK img).pix x y = BLACK := by
  induction rects generalizing img with
  | nil =>
    rcases hex with ⟨r, hr, -⟩
    exact absurd hr (List.not_mem_nil r)
  | cons r rs ih =>
    by_cases hrs : ∃ r' ∈ rs, Rect.mem r' x y
    · exact ih (drawFillOver img r BLACK) hb hrs
    · rcases hex with ⟨r', hr', hm⟩
      have hrr : r' = r := by
        rcases List.mem_cons.mp hr' with h | h
        · exact h
        · exact absurd ⟨r', h, hm⟩ hrs
      subst hrr
      calc (fillAll (r' :: rs) BLACK img).pix x y
          = (fillAll rs BLACK (drawFillOver img r' BLACK)).pix x y := rfl
        _ = (drawFillOver img r' BLACK).pix x y :=
            fillAll_pix_not rs BLACK _ x y (fun s hs hms => hrs ⟨s, hs, hms⟩)
        _ = overOp BLACK (img.pix x y) :=
            drawFillOver_pix_mem _ _ _ _ _ (Rect.mem_inter.mpr ⟨hm, hb⟩)
        _ = BLACK := overOp_black _

/-- The eight rectangles that `fixCorners` actually paints, in canonical form:
anchored at the four corners of the inner card rectangle and extending *inward*
into the original-image region, each `0.75*bleedWidth` along one axis and
`bleedWidth` along the other. -/
def cornerRepairRects (bleedWidth : ℕ) (inner : Rect) : List Rect :=
  let rectWidth : ℤ := 3 * (bleedWidth : ℤ) / 4
  let bw : ℤ := bleedWidth
  [⟨inner.x0, inner.y0, inner.x0 + rectWidth, inner.y0 + bw⟩,
   ⟨inner.x0, inner.y0, inner.x0 + bw, inner.y0 + rectWidth⟩,
   ⟨inner.x1 - rectWidth, inner.y0, inner.x1, inner.y0 + bw⟩,
   ⟨inner.x1 - bw, inner.y0, inner.x1, inner.y0 + rectWidth⟩,
   ⟨inner.x1 - rectWidth, inner.y1 - bw, inner.x1, inner.y1⟩,
   ⟨inner.x1 - bw, inner.y1 - rectWidth, inner.x1, inner.y1⟩,
   ⟨inner.x0, inner.y1 - bw, inner.x0 + rectWidth, inner.y1⟩,
   ⟨inner.x0, inner.y1 - rectWidth, inner.x0 + bw, inner.y1⟩]

/-- Modelled from the spec: §4.3 describes the repair rectangles as anchored at
the four corners of the inner (original-image) rectangle and "extending outward
into the bleed margin" — the mirror images, through each corner, of the strips
the code paints. -/
def specOutwardCornerRects (bleedWidth : ℕ) (inner : Rect) : List Rect :=
  let rectWidth : ℤ := 3 * (bleedWidth : ℤ) / 4
  let bw : ℤ := bleedWidth
  [⟨inner.x0 - rectWidth, inner.y0 - bw, inner.x0, inner.y0⟩,
   ⟨inner.x0 - bw, inner.y0 - rectWidth, inner.x0, inner.y0⟩,
   ⟨inner.x1, inner.y0 - bw, inner.x1 + rectWidth, inner.y0⟩,
   ⟨inner.x1, inner.y0 - rectWidth, inner.x1 + bw, inner.y0⟩,
   ⟨inner.x1, inner.y1, inner.x1 + rectWidth, inner.y1 + bw⟩,
   ⟨inner.x1, inner.y1, inner.x1 + bw, inner.y1 + rectWidth⟩,
   ⟨inner.x0 - rectWidth, inner.y1, inner.x0, inner.y1 + bw⟩,
   ⟨inner.x0 - bw, inner.y1, inner.x0, inner.y1 + rectWidth⟩]

/-- A 46 × 46 all-white, fully opaque test image (the size of the output canvas
for a 42 × 42 input with bleed width 2). -/
def whiteImg46 : GoImage := ⟨46, 46, fun _ _ => WHITE⟩

/-- C5, counterexample: the inner corner pixel (2,2) lies outside all eight
spec-described outward rectangles (they sit in the bleed margin), yet
`fixCorners` repaints it black — the painted strips extend inward, not outward. -/
theorem fixCorners_outward_counterexample :
    (∀ r ∈ specOutwardCornerRects 2 ⟨2, 2, 44, 44⟩, ¬ r.mem 2 2) ∧
      (fixCorners whiteImg46 2 ⟨2, 2, 44, 44⟩).pix 2 2 = BLACK ∧
      whiteImg46.pix 2 2 = WHITE ∧ BLACK ≠ WHITE := by
  refine ⟨by decide, by decide, rfl, by decide⟩

/-- C5 (amended), main theorem: `fixCorners` changes only pixels inside the
eight corner rectangles (two per inner corner, sized `0.75*bleedPx` by
`bleedPx`, anchored at the inner corners and extending *inward* into the
original-image region); every pixel outside them is untouched, and every
in-bounds pixel inside them is painted opaque black. -/
theorem fixCorners_spec (img : GoImage) (bw : ℕ) (inner : Rect) :
    (∀ x y : ℤ, (∀ r ∈ cornerRepairRects bw inner, ¬ r.mem x y) →
        (fixCorners img bw inner).pix x y = img.pix x y) ∧
    (∀ x y : ℤ, img.bounds.mem x y → (∃ r ∈ cornerRepairRects bw inner, r.mem x y) →
        (fixCorners img bw inner).pix x y = BLACK) := by
  have heq : fixCorners img bw inner =
      fillAll
        [mkRect inner.x0 inner.y0 (inner.x0 + 3 * (bw : ℤ) / 4) (inner.y0 + (bw : ℤ)),
         mkRect inner.x0 inner.y0 (inner.x0 + (bw : ℤ)) (inner.y0 + 3 * (bw : ℤ) / 4),
         mkRect inner.x1 inner.y0 (inner.x1 - 3 * (bw : ℤ) / 4) (inner.y0 + (bw : ℤ)),
         mkRect inner.x1 inner.y0 (inner.x1 - (bw : ℤ)) (inner.y0 + 3 * (bw : ℤ) / 4),
         mkRect inner.x1 inner.y1 (inner.x1 - 3 * (bw : ℤ) / 4) (inner.y1 - (bw : ℤ)),
         mkRect inner.x1 inner.y1 (inner.x1 - (bw : ℤ)) (inner.y1 - 3 * (bw : ℤ) / 4),
         mkRect inner.x0 inner.y1 (inner.x0 + 3 * (bw : ℤ) / 4) (inner.y1 - (bw : ℤ)),
         mkRect inner.x0 inner.y1 (inner.x0 + (bw : ℤ)) (inner.y1 - 3 * (bw : ℤ) / 4)]
        BLACK img := rfl
  constructor
  · intro x y h
    rw [heq]
    apply fillAll_pix_not
    intro r hr
    simp only [cornerRepairRects, List.mem_cons, List.not_mem_nil, or_false, forall_eq_or_imp,
      forall_eq, Rect.mem] at h
    simp only [List.mem_cons, List.not_mem_nil, or_false] at hr
    rcases hr with rfl | rfl | rfl | rfl | rfl | rfl | rfl | rfl <;>
      simp only [Rect.mem, mkRect] <;> omega
  · intro x y hb hex
    rw [heq]
    apply fillAll_pix_black _ _ _ _ hb
    simp only [cornerRepairRects, List.mem_cons, List.not_mem_nil, or_false, exists_eq_or_imp,
      exists_eq_left, Rect.mem] at hex
    simp only [List.mem_cons, List.not_mem_nil, or_false, exists_eq_or_imp, exists_eq_left,
      Rect.mem, mkRect]
    rcases hex with h | h | h | h | h | h | h | h
    · exact Or.inl (by omega)
    · exact Or.inr (Or.inl (by omega))
    · exact Or.inr (Or.inr (Or.inl (by omega)))
    · exact Or.inr (Or.inr (Or.inr (Or.inl (by omega))))
    · exact Or.inr (Or.inr (Or.inr (Or.inr (Or.inl (by omega)))))
    · exact Or.inr (Or.inr (Or.inr (Or.inr (Or.inr (Or.inl (by omega))))))
    · exact Or.inr (Or.inr (Or.inr (Or.inr (Or.inr (Or.inr (Or.inl (by omega)))))))
    · exact Or.inr (Or.inr (Or.inr (Or.inr (Or.inr (Or.inr (Or.inr (by omega)))))))

/-- C5 (amended), witness: on a concrete 46×46 white canvas with inner rectangle
`[2,44)²` and bleed width 2, a pixel outside the repair rectangles is untouched
and the inner corner pixel is painted black. -/
theorem fixCorners_spec_witness :
    (fixCorners whiteImg46 2 ⟨2, 2, 44, 44⟩).pix 30 30 = whiteImg46.pix 30 30 ∧
      (fixCorners whiteImg46 2 ⟨2, 2, 44, 44⟩).pix 2 2 = BLACK :=
  ⟨(fixCorners_spec whiteImg46 2 ⟨2, 2, 44, 44⟩).1 30 30 (by decide),
   (fixCorners_spec whiteImg46 2 ⟨2, 2, 44, 44⟩).2 2 2 (by decide) (by decide)⟩

/-- C4, code-bug evidence: with every flag at its default (`-jcf` defaults to
`false`), a jpeg input still has its corners repainted, because the gate in
`createCardWithBleed` is the hard-coded global `cornerFix = true` and the
`JPG_CORNER_FIX` flag is never read. -/
theorem cornerFix_applied_despite_default_flag :
    JPG_CORNER_FIX_default = false ∧ cornerFix = true ∧
      whiteImg42.pix 2 3 = WHITE ∧
      (createCardWithBleed whiteImg42 "jpeg".toList).pix 2 3 = BLACK := by
  refine ⟨rfl, rfl, rfl, ?_⟩
  simp only [createCardWithBleed]
  rw [calculateBleedWidth_whiteImg42]
  decide

/-! ## Strings, paths, and the file pipeline -/

/-- Scan a reversed path for its extension, as Go's `path.Ext` loop does: walk
back from the end of the string until a `/`; on the first `.` return (reversed)
the suffix that starts there; `none` when no dot is seen. -/
def extRev : List Char → Option (List Char)
  | [] => none
  | c :: rest =>
    if c = '/' then none
    else if c = '.' then some [c]
    else (extRev rest).map (fun e => c :: e)

/-- Go `path.Ext` (also `filepath.Ext`, with `/` separators): the suffix
starting at the final dot in the final path element, empty if there is none. -/
def goPathExt (s : List Char) : List Char :=
  ((extRev s.reverse).getD []).reverse

/-- Go `strings.HasSuffix`. -/
def goHasSuffix (s suffix : List Char) : Bool :=
  decide (suffix.length ≤ s.length) && decide (s.drop (s.length - suffix.length) = suffix)

/-- Go `strings.TrimSuffix`. -/
def trimSuffix (s suffix : List Char) : List Char :=
  if goHasSuffix s suffix then s.take (s.length - suffix.length) else s

/-- Go `path.Join` of a folder and a file name (the `path.Clean` normalisation
is the identity on the already-clean segment pairs the program joins). -/
def pathJoin (a b : List Char) : List Char := a ++ '/' :: b

/-- Source global `supportedFileTypes = []string{".png", ".jpg", ".jpeg"}`. -/
def supportedFileTypes : List (List Char) := [".png".toList, ".jpg".toList, ".jpeg".toList]

/-- One entry of `os.ReadDir`: a name and whether it is a subdirectory. -/
structure DirEntry where
  name : List Char
  isDir : Bool
deriving DecidableEq, Repr

/-- Source `queueImageJobs`: emit one job (joined input path) per non-directory
entry whose extension is in `supportedFileTypes`, in enumeration order. -/
def queueImageJobs (inFolder : List Char) : List DirEntry → List (List Char)
  | [] => []
  | entry :: rest =>
    if entry.isDir = false ∧ goPathExt entry.name ∈ supportedFileTypes then
      pathJoin inFolder entry.name :: queueImageJobs inFolder rest
    else queueImageJobs inFolder rest

/-- The dispatch in `main` (src/main.go:57-75): a directory is enumerated
through `queueImageJobs`; any non-directory input path becomes the single job
handed to `handleWriteImage`, with no extension filtering. -/
def mainJobs (root : List Char) (isDir : Bool) (entries : List DirEntry) : List (List Char) :=
  if isDir then queueImageJobs root entries else [root]

/-- Per-job outcome of the worker loop in `handleWriteImageWorker`: each drained
job paired with `true` on success or `false` when `handleWriteImage` returned an
error, which the loop caught, printed, and moved past. -/
def handleWriteImageWorker (handle : List Char → Except (List Char) Unit) :
    List (List Char) → List (List Char × Bool)
  | [] => []
  | job :: rest =>
    match handle job with
    | .ok _ => (job, true) :: handleWriteImageWorker handle rest
    | .error _ => (job, false) :: handleWriteImageWorker handle rest

/-- The skip condition at src/main.go:114,
`*OW_OUT && !errors.Is(err, os.ErrNotExist)`: the write is skipped exactly when
the overwrite flag is set AND the output file already exists. -/
def overwriteSkipCondition (owOut fileOnDisk : Bool) : Bool := owOut && fileOnDisk

/-- The output-format resolution at the top of `saveImage`: keep the detected
input format when the `-fmt` flag is `auto`, otherwise force the flag's format. -/
def resolveOutFmt (outFmtFlag imgInFmt : List Char) : List Char :=
  if ¬(outFmtFlag = "auto".toList) then outFmtFlag else imgInFmt

/-- Which encoder `saveImage` calls. -/
inductive EncodedFmt where
  | png
  | jpeg
deriving DecidableEq, Repr

/-- Source `saveImage(outPath, imgOut, imgInFmt)`, pixel data abstracted away:
the path actually created/written, and either the encoder used or the
unsupported-format error. -/
def saveImage (outPath imgInFmt outFmtFlag : List Char) :
    List Char × Except (List Char) EncodedFmt :=
  let imgOutFmt := resolveOutFmt outFmtFlag imgInFmt
  let outPath2 := trimSuffix outPath (goPathExt outPath) ++ '.' :: imgOutFmt
  (outPath2,
    if imgOutFmt = "png".toList then .ok .png
    else if imgOutFmt = "jpg".toList ∨ imgOutFmt = "jpeg".toList then .ok .jpeg
    else .error ("Failed to save image - unsupported format: ".toList ++ imgOutFmt))

/-- The path `handleWriteImage` checks with `os.Stat` before deciding whether to
skip: output folder joined with the input's base name, original extension still
in place (src/main.go:112-114). -/
def handleWriteImageCheckedPath (outFolderPath outImgBaseName : List Char) : List Char :=
  pathJoin outFolderPath outImgBaseName

/-- The path `saveImage` actually writes for the same job. -/
def handleWriteImageWrittenPath (outFolderPath outImgBaseName imgInFmt outFmtFlag : List Char) :
    List Char :=
  (saveImage (pathJoin outFolderPath outImgBaseName) imgInFmt outFmtFlag).1

/-! ## String lemmas -/

lemma extRev_prefix : ∀ (r e : List Char), extRev r = some e → ∃ t, r = e ++ t := by
  intro r
  induction r with
  | nil => intro e h; cases h
  | cons c rest ih =>
    intro e h
    simp only [extRev] at h
    by_cases hc : c = '/'
    · rw [if_pos hc] at h; cases h
    · rw [if_neg hc] at h
      by_cases hd : c = '.'
      · rw [if_pos hd] at h
        injection h with h
        subst h
        exact ⟨rest, rfl⟩
      · rw [if_neg hd] at h
        rcases hmap : extRev rest with - | e'
        · rw [hmap] at h; cases h
        · rw [hmap] at h
          simp only [Option.map_some'] at h
          injection h with h
          subst h
          obtain ⟨t, ht⟩ := ih e' hmap
          exact ⟨t, by simp [ht]⟩

/-- Every string splits as its extension-stripped stem followed by its
extension. -/
lemma exists_stem (s : List Char) : ∃ t, s = t ++ goPathExt s := by
  unfold goPathExt
  rcases hrev : extRev s.reverse with - | e
  · exact ⟨s, by simp⟩
  · obtain ⟨t, ht⟩ := extRev_prefix s.reverse e hrev
    refine ⟨t.reverse, ?_⟩
    have h2 := congrArg List.reverse ht
    simp only [List.reverse_reverse, List.reverse_append] at h2
    simpa using h2

lemma trimSuffix_append (t e : List Char) : trimSuffix (t ++ e) e = t := by
  unfold trimSuffix goHasSuffix
  have hlen : (t ++ e).length - e.length = t.length := by simp
  rw [hlen, List.drop_left, List.take_left]
  simp

/-! ## Remaining claims -/

/-- C3, code-bug evidence: with the overwrite flag at its default `false` and an
output file already on disk, the condition at src/main.go:114 does NOT skip (the
file is rewritten); the write is skipped only when `-w` ("Overwrite output
images ... that already exist.") is set — the inverse of the documented policy. -/
theorem overwriteSkipCondition_inverted :
    OW_OUT_default = false ∧
      overwriteSkipCondition false true = false ∧
      overwriteSkipCondition true true = true := by
  decide

/-- C6, main theorem: single-file mode yields exactly one job regardless of
extension; directory mode yields exactly the direct non-directory entries whose
extension case-sensitively matches, e.g. `{a.png, c.jpg}` out of
`{a.png, b.txt, c.jpg, d/}`. -/
theorem mainJobs_spec (root : List Char) (entries : List DirEntry) (job : List Char) :
    mainJobs root false entries = [root] ∧
    (job ∈ mainJobs root true entries ↔
      ∃ e ∈ entries, e.isDir = false ∧ goPathExt e.name ∈ supportedFileTypes ∧
        job = pathJoin root e.name) ∧
    mainJobs "in".toList true
        [⟨"a.png".toList, false⟩, ⟨"b.txt".toList, false⟩, ⟨"c.jpg".toList, false⟩,
         ⟨"d".toList, true⟩]
      = [pathJoin "in".toList "a.png".toList, pathJoin "in".toList "c.jpg".toList] := by
  refine ⟨rfl, ?_, by decide⟩
  show job ∈ queueImageJobs root entries ↔ _
  induction entries with
  | nil => simp [queueImageJobs]
  | cons e rest ih =>
    by_cases he : e.isDir = false ∧ goPathExt e.name ∈ supportedFileTypes
    · simp only [queueImageJobs, if_pos he, List.mem_cons, ih]
      constructor
      · rintro (rfl | ⟨e', he', h1, h2, rfl⟩)
        · exact ⟨e, Or.inl rfl, he.1, he.2, rfl⟩
        · exact ⟨e', Or.inr he', h1, h2, rfl⟩
      · rintro ⟨e', rfl | hmem, h1, h2, rfl⟩
        · exact Or.inl rfl
        · exact Or.inr ⟨e', hmem, h1, h2, rfl⟩
    · simp only [queueImageJobs, if_neg he, ih]
      constructor
      · rintro ⟨e', he', h1, h2, rfl⟩
        exact ⟨e', List.mem_cons_of_mem _ he', h1, h2, rfl⟩
      · rintro ⟨e', he', h1, h2, rfl⟩
        rcases List.mem_cons.mp he' with rfl | hmem
        · exact absurd ⟨h1, h2⟩ he
        · exact ⟨e', hmem, h1, h2, rfl⟩

/-- C8, main theorem: the worker loop drains every queued job exactly once, in
order, and the outcome recorded for each job is the independent result of
handling that job alone — a failure (reported as `false`) neither aborts the
loop nor changes how any other job is processed. -/
theorem handleWriteImageWorker_isolation (handle : List Char → Except (List Char) Unit)
    (jobs pre post : List (List Char)) (job : List Char) :
    (handleWriteImageWorker handle jobs).map Prod.fst = jobs ∧
    handleWriteImageWorker handle (pre ++ job :: post)
      = handleWriteImageWorker handle pre
          ++ handleWriteImageWorker handle [job]
          ++ handleWriteImageWorker handle post := by
  constructor
  · induction jobs with
    | nil => rfl
    | cons j rest ih =>
      cases hj : handle j <;> simp [handleWriteImageWorker, hj, ih]
  · induction pre with
    | nil =>
      cases hj : handle job <;> simp [handleWriteImageWorker, hj]
    | cons q rest ih =>
      cases hq : handle q <;> simp [handleWriteImageWorker, hq, ih]

/-- C7, main theorem: `saveImage` resolves `auto` to the detected input format
and any other flag value to itself; it writes to the input's base path with the
extension replaced by the resolved format; a resolved format other than
png/jpg/jpeg produces the unsupported-format error, while png and jpg/jpeg pick
the corresponding encoder. -/
theorem saveImage_spec (p inFmt flag : List Char) :
    resolveOutFmt "auto".toList inFmt = inFmt ∧
    (¬(flag = "auto".toList) → resolveOutFmt flag inFmt = flag) ∧
    (saveImage p inFmt flag).1
      = trimSuffix p (goPathExt p) ++ '.' :: resolveOutFmt flag inFmt ∧
    (¬(resolveOutFmt flag inFmt = "png".toList ∨ resolveOutFmt flag inFmt = "jpg".toList ∨
        resolveOutFmt flag inFmt = "jpeg".toList) →
      (saveImage p inFmt flag).2
        = .error ("Failed to save image - unsupported format: ".toList
            ++ resolveOutFmt flag inFmt)) ∧
    (resolveOutFmt flag inFmt = "png".toList → (saveImage p inFmt flag).2 = .ok .png) ∧
    ((resolveOutFmt flag inFmt = "jpg".toList ∨ resolveOutFmt flag inFmt = "jpeg".toList) →
      (saveImage p inFmt flag).2 = .ok .jpeg) := by
  refine ⟨by simp [resolveOutFmt], fun h => by unfold resolveOutFmt; rw [if_pos h], rfl,
    ?_, ?_, ?_⟩
  · intro h
    push_neg at h
    obtain ⟨h1, h2, h3⟩ := h
    have h23 : ¬(resolveOutFmt flag inFmt = "jpg".toList
        ∨ resolveOutFmt flag inFmt = "jpeg".toList) := by tauto
    simp only [saveImage]
    rw [if_neg h1, if_neg h23]
  · intro h
    simp only [saveImage]
    rw [if_pos h]
  · intro h
    have h1 : ¬(resolveOutFmt flag inFmt = "png".toList) := by
      rcases h with h | h <;> rw [h] <;> decide
    simp only [saveImage]
    rw [if_neg h1, if_pos h]

/-- C7, witness: with `-fmt auto` and a png input the resolved path keeps its
`.png` name; with `-fmt bmp` the save fails with the unsupported-format error. -/
theorem saveImage_spec_witness :
    (saveImage "out/a.png".toList "png".toList "auto".toList).1 = "out/a.png".toList ∧
    (saveImage "out/a.png".toList "png".toList "bmp".toList).2
      = .error ("Failed to save image - unsupported format: ".toList
          ++ resolveOutFmt "bmp".toList "png".toList) := by
  constructor
  · have h := (saveImage_spec "out/a.png".toList "png".toList "auto".toList).2.2.1
    rw [h]
    decide
  · exact (saveImage_spec "out/a.png".toList "png".toList "bmp".toList).2.2.2.1 (by decide)

/-- C10, main theorem: whenever the resolved output format differs from the
extension of the path that `handleWriteImage` builds from the input's base name,
the path inspected by the overwrite/existence check is not the path `saveImage`
writes — so an output produced earlier at the real (extension-replaced) path is
invisible to the skip check. -/
theorem handleWriteImage_existence_check_mismatch
    (outFolderPath outImgBaseName imgInFmt outFmtFlag : List Char)
    (h : goPathExt (handleWriteImageCheckedPath outFolderPath outImgBaseName)
        ≠ '.' :: resolveOutFmt outFmtFlag imgInFmt) :
    handleWriteImageWrittenPath outFolderPath outImgBaseName imgInFmt outFmtFlag
      ≠ handleWriteImageCheckedPath outFolderPath outImgBaseName := by
  intro heq
  apply h
  set p := handleWriteImageCheckedPath outFolderPath outImgBaseName with hp
  set e := goPathExt p with he
  obtain ⟨stem, hstem⟩ := exists_stem p
  rw [← he] at hstem
  have hwr : handleWriteImageWrittenPath outFolderPath outImgBaseName imgInFmt outFmtFlag
      = trimSuffix p e ++ '.' :: resolveOutFmt outFmtFlag imgInFmt := rfl
  rw [hwr] at heq
  rw [hstem, trimSuffix_append] at heq
  exact (List.append_cancel_left heq).symm

/-- C10, witness: default `-fmt png`... with `-fmt jpg` forced on a png-named
input, the checked path `out/a.png` is never the written path. -/
theorem handleWriteImage_existence_check_mismatch_witness :
    handleWriteImageWrittenPath "out".toList "a.png".toList "png".toList "jpg".toList
      ≠ handleWriteImageCheckedPath "out".toList "a.png".toList :=
  handleWriteImage_existence_check_mismatch
    "out".toList "a.png".toList "png".toList "jpg".toList (by decide)

end MpcBleeder
